import Mathlib

/-!
Verification of the GPS-track decoder and reconstructor in `src/main.rs`
(wfraser/arz).  The Rust program decodes a line-oriented tagged record
stream, derives fixed-offset timestamps, folds anchor/delta records into
absolute track points, and reports a maximum-speed summary.

Modelling conventions:
* Rust `i64`/`i32`/`u32` values are unbounded `Int`s; the explicit casts
  (`as u32`, `as i32`) and release-mode wrapping arithmetic are modelled by
  the `u32cast`/`i32cast`/`i64cast` truncations below.
* Rust `f64` fields are modelled as exact rationals (`ℚ`); the decimal
  literals occurring in the input format are finite decimals, so the
  rational value is the value the decoder computes before rounding.
  Non-finite float literals (`inf`/`nan`) are outside this rational domain.
* A Rust panic (an `unwrap` of `None`, or a `chrono` range violation in
  `FixedOffset::east` / `TimeZone::timestamp` / `DateTime + Duration`) is
  modelled by an explicit `panic` outcome (`none` for the reconstruction
  fold and for `applyDelta`).
-/

set_option maxRecDepth 4000

/-- Truncation of an unbounded integer to Rust `u32` (the `as u32` cast and
release-mode wrapping `u32` arithmetic). -/
def u32cast (x : Int) : Int := x % 4294967296

/-- Truncation of an unbounded integer to Rust `i32` (the `as i32` cast). -/
def i32cast (x : Int) : Int := (x + 2147483648) % 4294967296 - 2147483648

/-- Truncation of an unbounded integer to Rust `i64` (release-mode wrapping
`i64` arithmetic). -/
def i64cast (x : Int) : Int :=
  (x + 9223372036854775808) % 18446744073709551616 - 9223372036854775808

/-- A `chrono::DateTime<FixedOffset>` value: the absolute instant in
nanoseconds since the Unix epoch together with the display offset in
seconds east of UTC. -/
structure Timestamp where
  epochNanos : Int
  offsetSecs : Int
deriving DecidableEq, Repr

/-- Payload of a `GpsRecord::Delta` (`src/main.rs` lines 31-38): elapsed
duration in milliseconds and the decoded change/speed/heading fields. -/
structure DeltaRec where
  durationMillis : Int
  lat : ℚ
  lon : ℚ
  ele : ℚ
  speed : ℚ
  heading : ℚ
deriving DecidableEq, Repr

/-- The `GpsRecord` enum of `src/main.rs` lines 18-39. -/
inductive GpsRecord where
  | User (name : String)
  | Version (version : String)
  | AppVersion (version : String)
  | Device (fields : List String)
  | Coords (timestamp : Timestamp) (lat lon ele : ℚ)
  | Delta (d : DeltaRec)
deriving DecidableEq, Repr

/-- The `gpx::Point` struct as used by `src/main.rs` lines 146-163: time,
position, elevation, speed and course of one emitted track point. -/
structure Point where
  time : Timestamp
  lat : ℚ
  lon : ℚ
  ele : ℚ
  speed : ℚ
  course : ℚ
deriving DecidableEq, Repr

/-- Whether a record is a `Coords` (tag `H`, anchor) record. -/
def GpsRecord.isCoords : GpsRecord → Bool
  | .Coords _ _ _ _ => true
  | _ => false

/-- Whether a record is a `Delta` (tag `D`) record. -/
def GpsRecord.isDelta : GpsRecord → Bool
  | .Delta _ => true
  | _ => false

/-- The point seeded from an anchor (`H`) record (`src/main.rs` lines
146-153): position from the record, `speed = 0` and `course = 0`. -/
def anchorPoint (t : Timestamp) (lat lon ele : ℚ) : Point :=
  { time := t, lat := lat, lon := lon, ele := ele, speed := 0, course := 0 }

/-- The pure field mutation of the `Delta` arm (`src/main.rs` lines
156-162): clone the current anchor, add the duration to its time, add the
coordinate changes, and overwrite speed and course. -/
def applyDeltaPoint (p : Point) (d : DeltaRec) : Point :=
  { p with
    time := { p.time with epochNanos := p.time.epochNanos + d.durationMillis * 1000000 }
    lat := p.lat + d.lat
    lon := p.lon + d.lon
    ele := p.ele + d.ele
    speed := d.speed
    course := d.heading }

/-- Smallest `chrono` instant in nanoseconds since the Unix epoch
(`NaiveDateTime::MIN`, start of year -262144). -/
def minInstantNanos : Int := -8334632851200000000000

/-- Largest `chrono` instant in nanoseconds since the Unix epoch
(`NaiveDateTime::MAX`, last nanosecond of year 262143). -/
def maxInstantNanos : Int := 8210298412799999999999

/-- The `Delta` arm's point derivation: `point.time = point.time +
*duration` (`src/main.rs` line 157) uses chrono's `DateTime + Duration`,
which panics — modelled by `none` — when the resulting instant leaves the
representable `NaiveDateTime` range. -/
def applyDelta (p : Point) (d : DeltaRec) : Option Point :=
  if minInstantNanos ≤ p.time.epochNanos + d.durationMillis * 1000000 ∧
      p.time.epochNanos + d.durationMillis * 1000000 ≤ maxInstantNanos then
    some (applyDeltaPoint p d)
  else none

/-- One iteration of the reconstruction loop (`src/main.rs` lines 143-167):
given the current `last_h` state and one record, produce the new state and
the points emitted by this record, or `none` for a panic — the `unwrap`
of line 156 on a `Delta` with no preceding anchor, or the time-addition
overflow of line 157. -/
def recStep (last_h : Option Point) : GpsRecord → Option (Option Point × List Point)
  | .Coords timestamp lat lon ele => some (some (anchorPoint timestamp lat lon ele), [])
  | .Delta d =>
    match last_h with
    | none => none
    | some p =>
      match applyDelta p d with
      | none => none
      | some q => some (last_h, [q])
  | _ => some (last_h, [])

/-- The state component of the reconstruction loop in isolation: only a
`Coords` record replaces `last_h` (`src/main.rs` lines 145-153); every
other record leaves it unchanged. -/
def recState (st : Option Point) : GpsRecord → Option Point
  | .Coords timestamp lat lon ele => some (anchorPoint timestamp lat lon ele)
  | _ => st

/-- The `last_h` state after processing a record prefix from the initial
`None`. -/
def stateAfter (records : List GpsRecord) : Option Point :=
  records.foldl recState none

/-- The reconstruction loop from a given `last_h` state: emits the
concatenation of the per-record outputs, propagating the panic outcome. -/
def reconstructFrom : Option Point → List GpsRecord → Option (List Point)
  | _, [] => some []
  | st, r :: rs =>
    match recStep st r with
    | none => none
    | some (st2, out) =>
      match reconstructFrom st2 rs with
      | none => none
      | some rest => some (out ++ rest)

/-- The full reconstruction of `src/main.rs` lines 141-167: fold the decoded
record stream starting with `last_h = None`; `none` models the panic on a
`Delta` record with no preceding `Coords` record. -/
def reconstruct (records : List GpsRecord) : Option (List Point) :=
  reconstructFrom none records

/-- Number of `Delta` records in a stream. -/
def countDeltas (records : List GpsRecord) : Nat :=
  records.countP (fun r => r.isDelta)

/-- The speeds of the `Delta` records, in stream order (`src/main.rs`
lines 129-134). -/
def deltaSpeeds (records : List GpsRecord) : List ℚ :=
  records.filterMap fun r =>
    match r with
    | .Delta d => some d.speed
    | _ => none

/-- The `max_by` call of `src/main.rs` line 135 with the comparator
`if a > b then Greater else Less`: `std::cmp::max_by` keeps the first
element unless the new one compares strictly greater. Yields `none` on an
empty iterator, which line 136 `unwrap`s (a panic). -/
def maxBySpeed : List ℚ → Option ℚ
  | [] => none
  | s :: ss => some (ss.foldl (fun a x => if a < x then x else a) s)

/-- The maximum-speed summary value of `src/main.rs` lines 129-136 before
the final `unwrap`; `none` means that `unwrap` panics. -/
def maxSpeed (records : List GpsRecord) : Option ℚ :=
  maxBySpeed (deltaSpeeds records)

/-- Model of Rust `str::ends_with` as used at `src/main.rs` lines 50-52:
`s` ends with `suf` iff the last `suf.length` characters of `s` are `suf`. -/
def endsWithStr (s suf : String) : Bool :=
  decide (s.data.drop (s.data.length - suf.data.length) = suf.data)

/-- The member-selection loop of `src/main.rs` lines 45-57: walk the archive
listing, remembering the most recent `.gps` and `.acc` names, and fail on
any other name. -/
def selectLoop : Option String → Option String → List String →
    Except String (Option String × Option String)
  | gps, acc, [] => .ok (gps, acc)
  | gps, acc, p :: ps =>
    if endsWithStr p ".gps" then selectLoop (some p) acc ps
    else if endsWithStr p ".acc" then selectLoop gps (some p) ps
    else .error ("unrecognized filename " ++ p ++ " in input archive")

/-- The member selection of `src/main.rs` lines 45-65: run the loop, then
fail if either member is missing, else return the chosen pair. -/
def selectMembers (names : List String) : Except String (String × String) :=
  match selectLoop none none names with
  | .error e => .error e
  | .ok (none, _) => .error "missing a .gps file in archive"
  | .ok (_, none) => .error "missing a .acc file in archive"
  | .ok (some g, some a) => .ok (g, a)

/-- The names ending in `.gps`, in listing order. -/
def gpsNames (names : List String) : List String :=
  names.filter (fun n => endsWithStr n ".gps")

/-- The names ending in `.acc`, in listing order. -/
def accNames (names : List String) : List String :=
  names.filter (fun n => endsWithStr n ".acc")

/-- The last element of a list if it has one, else a fallback. -/
def lastOr (d : Option String) (l : List String) : Option String :=
  match l.getLast? with
  | some x => some x
  | none => d


/-- Splitting a character list at commas: the semantics of Rust
`str::split(',')` at `src/main.rs` line 70 (always at least one field,
empty input giving one empty field). -/
def splitFieldsAux : List Char → List (List Char)
  | [] => [[]]
  | c :: rest =>
    match splitFieldsAux rest with
    | [] => [[c]]
    | f :: fs => if c = ',' then [] :: f :: fs else (c :: f) :: fs

/-- Split a line at commas: `line.split(',')` of `src/main.rs` line 70. -/
def splitOnComma (s : String) : List String :=
  (splitFieldsAux s.data).map fun cs => String.mk cs

/-- Fold decimal digits into a natural number; fails at the first
character that is not an ASCII digit. -/
def digitsToNat : Nat → List Char → Option Nat
  | acc, [] => some acc
  | acc, c :: cs =>
    if c.isDigit then digitsToNat (acc * 10 + (c.toNat - 48)) cs else none

/-- Parse a nonempty all-digit character list. -/
def parseNatDigits : List Char → Option Nat
  | [] => none
  | cs => digitsToNat 0 cs

/-- Magnitude-and-sign part of `i64::from_str`: all characters must be
digits and the value must fit in a signed 64-bit integer. -/
def parseI64mag (neg : Bool) (cs : List Char) : Option Int :=
  match parseNatDigits cs with
  | none => none
  | some n =>
    if neg then (if n ≤ 2 ^ 63 then some (-(n : Int)) else none)
    else (if n < 2 ^ 63 then some (n : Int) else none)

/-- Model of Rust `i64::from_str` as invoked by `parse` in `src/main.rs`:
an optional `+`/`-` sign, then at least one decimal digit and nothing
else, with the signed 64-bit overflow check. -/
def parseI64 (s : String) : Option Int :=
  match s.data with
  | '+' :: cs => parseI64mag false cs
  | '-' :: cs => parseI64mag true cs
  | cs => parseI64mag false cs

/-- Numeric value of an all-digit character list. -/
def natOfDigits (cs : List Char) : Nat :=
  cs.foldl (fun a c => a * 10 + (c.toNat - 48)) 0

/-- Signed exponent digits of a float literal. -/
def parseSignedExp : List Char → Option Int
  | '+' :: cs => (parseNatDigits cs).map fun n => (n : Int)
  | '-' :: cs => (parseNatDigits cs).map fun n => -(n : Int)
  | cs => (parseNatDigits cs).map fun n => (n : Int)

/-- Exponent part of a float literal: empty, or `e`/`E` followed by an
optionally signed digit run (Rust `f64::from_str` grammar). -/
def parseExpPart : List Char → Option Int
  | [] => some 0
  | 'e' :: cs => parseSignedExp cs
  | 'E' :: cs => parseSignedExp cs
  | _ => none

/-- Unsigned part of a float literal: `digits`, `digits.digits`,
`digits.` or `.digits`, then an optional exponent, with the exact rational
value. -/
def parseF64core (cs : List Char) : Option ℚ :=
  let ip := cs.takeWhile Char.isDigit
  let rest := cs.dropWhile Char.isDigit
  match rest with
  | '.' :: rest2 =>
    let fp := rest2.takeWhile Char.isDigit
    let rest3 := rest2.dropWhile Char.isDigit
    if ip.isEmpty && fp.isEmpty then none
    else
      match parseExpPart rest3 with
      | none => none
      | some e => some ((natOfDigits (ip ++ fp) : ℚ) / 10 ^ fp.length * (10 : ℚ) ^ e)
  | _ =>
    if ip.isEmpty then none
    else
      match parseExpPart rest with
      | none => none
      | some e => some ((natOfDigits ip : ℚ) * (10 : ℚ) ^ e)

/-- Model of Rust `f64::from_str` for the finite decimal literals of the
input format, keeping the exact rational value; the non-finite literals
(`inf`, `infinity`, `nan`) lie outside the rational domain and are not
accepted by this model. -/
def parseF64 (s : String) : Option ℚ :=
  match s.data with
  | '+' :: cs => parseF64core cs
  | '-' :: cs => (parseF64core cs).map Neg.neg
  | cs => parseF64core cs

/-- Proleptic Gregorian leap-year rule. -/
def isLeapYear (y : Int) : Bool :=
  (y.emod 4 == 0 && y.emod 100 != 0) || y.emod 400 == 0

/-- Days in a month of the proleptic Gregorian calendar. -/
def daysInMonth (y : Int) (m : Nat) : Nat :=
  if m = 2 then (if isLeapYear y then 29 else 28)
  else if m = 4 ∨ m = 6 ∨ m = 9 ∨ m = 11 then 30
  else 31

/-- Consume all leading digits (at least one) and return their value and
the remainder. -/
def takeAllDigits (cs : List Char) : Option (Nat × List Char) :=
  let ds := cs.takeWhile Char.isDigit
  if ds.isEmpty then none else some (natOfDigits ds, cs.dropWhile Char.isDigit)

/-- Consume between one and `maxw` leading digits and return their value
and the remainder. -/
def takeNum (maxw : Nat) (cs : List Char) : Option (Nat × List Char) :=
  let ds := (cs.takeWhile Char.isDigit).take maxw
  if ds.isEmpty then none else some (natOfDigits ds, cs.drop ds.length)

/-- Optionally signed year field of the datetime pattern: with an
explicit sign `chrono` accepts any digit run, without one `%Y` consumes at
most four digits. -/
def parseYearPart : List Char → Option (Int × List Char)
  | '-' :: cs => (takeAllDigits cs).map fun p => (-(p.1 : Int), p.2)
  | '+' :: cs => (takeAllDigits cs).map fun p => ((p.1 : Int), p.2)
  | cs => (takeNum 4 cs).map fun p => ((p.1 : Int), p.2)

/-- Optional fractional-second tail `%.f`: either nothing, or a dot
followed by a nonempty digit run (of any length — `chrono` consumes all
digits and keeps nanosecond precision), ending the string. -/
def parseFracPart : List Char → Bool
  | [] => true
  | '.' :: cs =>
    let ds := cs.takeWhile Char.isDigit
    if ds.isEmpty then false else (cs.drop ds.length).isEmpty
  | _ => false

/-- Model of the `chrono` parseability check of `src/main.rs` lines 98-101:
the string must match `%Y-%m-%dT%H:%M:%S%.f` and denote a valid proleptic
Gregorian datetime within `chrono`'s year range. As in `chrono`, each
numeric field may be preceded by whitespace, an unsigned year takes at
most four digits, a leap second `60` is accepted, and the fractional part
may have any number of digits. The parsed value is discarded by the
decoder; only success or failure matters. -/
def validDatetime (s : String) : Bool :=
  match parseYearPart (s.data.dropWhile Char.isWhitespace) with
  | none => false
  | some (y, r1) =>
    match r1 with
    | '-' :: r2 =>
      match takeNum 2 (r2.dropWhile Char.isWhitespace) with
      | none => false
      | some (mo, r3) =>
        match r3 with
        | '-' :: r4 =>
          match takeNum 2 (r4.dropWhile Char.isWhitespace) with
          | none => false
          | some (d, r5) =>
            match r5 with
            | 'T' :: r6 =>
              match takeNum 2 (r6.dropWhile Char.isWhitespace) with
              | none => false
              | some (h, r7) =>
                match r7 with
                | ':' :: r8 =>
                  match takeNum 2 (r8.dropWhile Char.isWhitespace) with
                  | none => false
                  | some (mi, r9) =>
                    match r9 with
                    | ':' :: r10 =>
                      match takeNum 2 (r10.dropWhile Char.isWhitespace) with
                      | none => false
                      | some (sec, r11) =>
                        parseFracPart r11 &&
                        decide (-262144 ≤ y) && decide (y ≤ 262143) &&
                        decide (1 ≤ mo) && decide (mo ≤ 12) &&
                        decide (1 ≤ d) && decide (d ≤ daysInMonth y mo) &&
                        decide (h < 24) && decide (mi < 60) && decide (sec ≤ 60)
                    | _ => false
                | _ => false
            | _ => false
        | _ => false
    | _ => false

/-- The decode-error taxonomy of `src/main.rs` lines 68-127: the
`missing tag field` branch of line 71, the `unrecognized tag` branch of
line 125, the `missing field` errors of `OptionExt::named` (lines 8-16)
and the `invalid ...` parse-context errors of the field-parsing
helper of lines 72-76. -/
inductive DecodeErr where
  | missingTag
  | unknownTag (tag : String)
  | missingField (name : String)
  | invalidField (name : String)
deriving DecidableEq, Repr

/-- Outcome of decoding one line: a record, a named decode error, or a
Rust panic (from the `chrono` range checks in the `H` arm). -/
inductive DecodeResult where
  | ok (r : GpsRecord)
  | error (e : DecodeErr)
  | panic
deriving DecidableEq, Repr

/-- Smallest UTC timestamp in seconds representable by a `chrono`
`NaiveDateTime` (start of year -262144). -/
def minTimestampSecs : Int := -8334632851200

/-- Largest UTC timestamp in seconds representable by a `chrono`
`NaiveDateTime` (end of year 262143). -/
def maxTimestampSecs : Int := 8210298412799

/-- The timezone-offset derivation of `src/main.rs` lines 91-92: wrapping
`i64` subtraction, Rust truncating division by 1000, and the `as i32`
cast. -/
def tzOffSecs (utc loc : Int) : Int := i32cast ((i64cast (loc - utc)).tdiv 1000)

/-- The sub-second nanosecond argument of `src/main.rs` line 95:
`(utc_timestamp % 1000) as u32 * 1_000_000` with wrapping `u32`
multiplication. -/
def subsecNanos (utc : Int) : Int := u32cast (u32cast (utc.tmod 1000) * 1000000)

/-- End of the `H` arm after field extraction (`src/main.rs` lines 91-106):
derive the fixed offset (`FixedOffset::east` panics outside the exclusive
±86400 s bounds), build the timestamp (`TimeZone::timestamp` panics when
the instant is not representable), then validate the two datetime strings
and produce the record. -/
def hTail (utc : Int) (lat lon ele : ℚ) (loc : Int) (dt1 dt2 : String) : DecodeResult :=
  if -86400 < tzOffSecs utc loc ∧ tzOffSecs utc loc < 86400 then
    if subsecNanos utc < 2000000000 ∧ minTimestampSecs ≤ utc.tdiv 1000 ∧
        utc.tdiv 1000 ≤ maxTimestampSecs then
      if validDatetime dt1 then
        if validDatetime dt2 then
          .ok (.Coords ⟨utc.tdiv 1000 * 1000000000 + subsecNanos utc, tzOffSecs utc loc⟩
            lat lon ele)
        else .error (.invalidField "second datetime")
      else .error (.invalidField "first datetime")
    else .panic
  else .panic

/-- The `H` arm of the decoder (`src/main.rs` lines 82-107): extract and
parse the seven value fields in order — absence of a field or a parse
failure is a named decode error — then finish with `hTail`. -/
def decodeH : List String → DecodeResult
  | [] => .error (.missingField "timestamp")
  | s1 :: r1 =>
    match parseI64 s1 with
    | none => .error (.invalidField "timestamp")
    | some utc =>
      match r1 with
      | [] => .error (.missingField "latitude")
      | s2 :: r2 =>
        match parseF64 s2 with
        | none => .error (.invalidField "latitude")
        | some lat =>
          match r2 with
          | [] => .error (.missingField "longitude")
          | s3 :: r3 =>
            match parseF64 s3 with
            | none => .error (.invalidField "longitude")
            | some lon =>
              match r3 with
              | [] => .error (.missingField "elevation")
              | s4 :: r4 =>
                match parseF64 s4 with
                | none => .error (.invalidField "elevation")
                | some ele =>
                  match r4 with
                  | [] => .error (.missingField "local timestamp")
                  | s5 :: r5 =>
                    match parseI64 s5 with
                    | none => .error (.invalidField "local timestamp")
                    | some loc =>
                      match r5 with
                      | [] => .error (.missingField "first datetime")
                      | s6 :: r6 =>
                        match r6 with
                        | [] => .error (.missingField "second datetime")
                        | s7 :: _ => hTail utc lat lon ele loc s6 s7

/-- The `D` arm of the decoder (`src/main.rs` lines 108-124): extract and
parse the six value fields in order, then scale the integer changes —
micro-degrees divided by 1,000,000, decimetres divided by 10 — into the
delta record. -/
def decodeD : List String → DecodeResult
  | [] => .error (.missingField "milliseconds")
  | s1 :: r1 =>
    match parseI64 s1 with
    | none => .error (.invalidField "milliseconds")
    | some millis =>
      match r1 with
      | [] => .error (.missingField "latitude change")
      | s2 :: r2 =>
        match parseI64 s2 with
        | none => .error (.invalidField "latitude change")
        | some latc =>
          match r2 with
          | [] => .error (.missingField "longitude change")
          | s3 :: r3 =>
            match parseI64 s3 with
            | none => .error (.invalidField "longitude change")
            | some lonc =>
              match r3 with
              | [] => .error (.missingField "elevation change")
              | s4 :: r4 =>
                match parseI64 s4 with
                | none => .error (.invalidField "elevation change")
                | some elec =>
                  match r4 with
                  | [] => .error (.missingField "speed")
                  | s5 :: r5 =>
                    match parseF64 s5 with
                    | none => .error (.invalidField "speed")
                    | some speed =>
                      match r5 with
                      | [] => .error (.missingField "heading")
                      | s6 :: _ =>
                        match parseF64 s6 with
                        | none => .error (.invalidField "heading")
                        | some heading =>
                          .ok (.Delta ⟨millis, (latc : ℚ) / 1000000,
                            (lonc : ℚ) / 1000000, (elec : ℚ) / 10, speed, heading⟩)

/-- One iteration of the decoder loop (`src/main.rs` lines 68-127): the
first comma-separated field is the tag; dispatch on it. -/
def decodeFields : List String → DecodeResult
  | [] => .error .missingTag
  | tag :: fields =>
    if tag = "U" then
      match fields with
      | [] => .error (.missingField "username")
      | u :: _ => .ok (.User u)
    else if tag = "V" then
      match fields with
      | [] => .error (.missingField "version")
      | v :: _ => .ok (.Version v)
    else if tag = "A" then
      match fields with
      | [] => .error (.missingField "app version")
      | v :: _ => .ok (.AppVersion v)
    else if tag = "I" then .ok (.Device fields)
    else if tag = "H" then decodeH fields
    else if tag = "D" then decodeD fields
    else .error (.unknownTag tag)

/-- Decode one input line: split at commas, then dispatch on the tag. -/
def decodeLine (line : String) : DecodeResult :=
  decodeFields (splitOnComma line)

/-- Outcome of decoding a whole line stream. -/
inductive DecodeLinesResult where
  | ok (records : List GpsRecord)
  | error (e : DecodeErr)
  | panic
deriving DecidableEq, Repr

/-- The decode loop of `src/main.rs` lines 68-128: decode each line in
order, stopping at the first named error (the `?` operator makes every
decode error terminal for the run) or panic. -/
def decodeLines : List String → DecodeLinesResult
  | [] => .ok []
  | l :: ls =>
    match decodeLine l with
    | .error e => .error e
    | .panic => .panic
    | .ok r =>
      match decodeLines ls with
      | .error e => .error e
      | .panic => .panic
      | .ok rs => .ok (r :: rs)

/-- Whether a single-line decode produced a record. -/
def DecodeResult.isOk : DecodeResult → Bool
  | .ok _ => true
  | _ => false

/-- Whether a stream decode produced a record list. -/
def DecodeLinesResult.isOk : DecodeLinesResult → Bool
  | .ok _ => true
  | _ => false

/-- Declared type of a value field in the tag grammar. -/
inductive FieldType where
  | str
  | i64
  | f64
deriving DecidableEq, Repr

/-- Whether a field string parses as its declared type. -/
def fieldOk : FieldType → String → Bool
  | .str, _ => true
  | .i64, s => (parseI64 s).isSome
  | .f64, s => (parseF64 s).isSome

/-- Required value fields of tag `U`, in extraction order with their
declared types (spec-side restatement of the tag grammar of
`src/main.rs` line 78). -/
def uSchema : List (String × FieldType) := [("username", .str)]

/-- Required value fields of tag `V` (`src/main.rs` line 79). -/
def vSchema : List (String × FieldType) := [("version", .str)]

/-- Required value fields of tag `A` (`src/main.rs` line 80). -/
def aSchema : List (String × FieldType) := [("app version", .str)]

/-- Required value fields of tag `H` (`src/main.rs` lines 83-89); the two
datetime strings are extracted as strings and validated later. -/
def hSchema : List (String × FieldType) :=
  [("timestamp", .i64), ("latitude", .f64), ("longitude", .f64), ("elevation", .f64),
    ("local timestamp", .i64), ("first datetime", .str), ("second datetime", .str)]

/-- Required value fields of tag `D` (`src/main.rs` lines 109-114). -/
def dSchema : List (String × FieldType) :=
  [("milliseconds", .i64), ("latitude change", .i64), ("longitude change", .i64),
    ("elevation change", .i64), ("speed", .f64), ("heading", .f64)]

/-- The tag table of the decoder: the known tags and their field schemas;
`none` marks an unrecognized tag. -/
def schema (tag : String) : Option (List (String × FieldType)) :=
  if tag = "U" then some uSchema
  else if tag = "V" then some vSchema
  else if tag = "A" then some aSchema
  else if tag = "I" then some []
  else if tag = "H" then some hSchema
  else if tag = "D" then some dSchema
  else none

/-- Spec-side restatement of sequential field extraction: the first
problem while extracting fields against a schema, a `missing field` error
naming the schema entry where the fields ran out, or an `invalid` error
naming the first field that fails its declared-type parse. `none` when
extraction succeeds. -/
def firstProblem : List (String × FieldType) → List String → Option DecodeErr
  | [], _ => none
  | (n, _) :: _, [] => some (.missingField n)
  | (n, t) :: sch, f :: fs =>
    if fieldOk t f then firstProblem sch fs else some (.invalidField n)

/-- Spec-side record construction once extraction has succeeded: re-read
each field at its schema position and build the record of the tag. -/
def specBuild (tag : String) (fields : List String) : DecodeResult :=
  if tag = "U" then .ok (.User (fields.getD 0 ""))
  else if tag = "V" then .ok (.Version (fields.getD 0 ""))
  else if tag = "A" then .ok (.AppVersion (fields.getD 0 ""))
  else if tag = "I" then .ok (.Device fields)
  else if tag = "H" then
    hTail ((parseI64 (fields.getD 0 "")).getD 0)
      ((parseF64 (fields.getD 1 "")).getD 0)
      ((parseF64 (fields.getD 2 "")).getD 0)
      ((parseF64 (fields.getD 3 "")).getD 0)
      ((parseI64 (fields.getD 4 "")).getD 0)
      (fields.getD 5 "") (fields.getD 6 "")
  else if tag = "D" then
    .ok (.Delta ⟨(parseI64 (fields.getD 0 "")).getD 0,
      (((parseI64 (fields.getD 1 "")).getD 0 : Int) : ℚ) / 1000000,
      (((parseI64 (fields.getD 2 "")).getD 0 : Int) : ℚ) / 1000000,
      (((parseI64 (fields.getD 3 "")).getD 0 : Int) : ℚ) / 10,
      (parseF64 (fields.getD 4 "")).getD 0,
      (parseF64 (fields.getD 5 "")).getD 0⟩)
  else .error (.unknownTag tag)

/-- Spec-side decoder, following the spec's description of the grammar: an
unknown tag is an error naming the tag; otherwise the first extraction
problem against the tag's schema is the named decode error; otherwise the
record is built (for `H` including the offset/instant range conditions
under which the reference implementation panics instead). -/
def specDecode : List String → DecodeResult
  | [] => .error .missingTag
  | tag :: fields =>
    match schema tag with
    | none => .error (.unknownTag tag)
    | some sch =>
      match firstProblem sch fields with
      | some e => .error e
      | none => specBuild tag fields

/-- Decode a whole line stream, then reconstruct the track (the sequence
of `src/main.rs` lines 68-128 and 141-167); `none` when the run aborts
before producing points. -/
def runPipeline (lines : List String) : Option (List Point) :=
  match decodeLines lines with
  | .ok rs => reconstruct rs
  | _ => none


lemma reconstructFrom_cons_delta (p : Point) (d : DeltaRec) (rs : List GpsRecord) :
    reconstructFrom (some p) (.Delta d :: rs) =
      (applyDelta p d).bind fun q =>
        (reconstructFrom (some p) rs).map fun rest => q :: rest := by
  cases hq : applyDelta p d with
  | none => simp [reconstructFrom, recStep, hq]
  | some q =>
    cases hr : reconstructFrom (some p) rs with
    | none => simp [reconstructFrom, recStep, hq, hr]
    | some rest => simp [reconstructFrom, recStep, hq, hr]

lemma applyDelta_some (p : Point) (d : DeltaRec) (q : Point)
    (hq : applyDelta p d = some q) : q = applyDeltaPoint p d := by
  unfold applyDelta at hq
  split_ifs at hq
  exact (Option.some.inj hq).symm

lemma reconstructFrom_mapM_delta (a : Point) (ds : List DeltaRec) :
    reconstructFrom (some a) (ds.map .Delta) = ds.mapM (applyDelta a) := by
  induction ds with
  | nil => rfl
  | cons d ds ih =>
    rw [List.map_cons, reconstructFrom_cons_delta, ih, List.mapM_cons]
    cases applyDelta a d <;> cases hm : ds.mapM (applyDelta a) <;> simp [hm]

lemma reconstructFrom_length (records : List GpsRecord) :
    ∀ st ps, reconstructFrom st records = some ps → ps.length = countDeltas records := by
  induction records with
  | nil =>
    intro st ps h
    simp [reconstructFrom] at h
    simp [← h, countDeltas]
  | cons r rs ih =>
    intro st ps h
    cases r with
    | Coords t la lo el =>
      simp only [reconstructFrom, recStep] at h
      cases h2 : reconstructFrom (some (anchorPoint t la lo el)) rs with
      | none => rw [h2] at h; exact absurd h (by simp)
      | some rest =>
        rw [h2] at h
        simp at h
        rw [← h]
        simpa [countDeltas, GpsRecord.isDelta] using ih _ _ h2
    | Delta d =>
      cases st with
      | none => exact absurd h (by simp [reconstructFrom, recStep])
      | some p =>
        rw [reconstructFrom_cons_delta] at h
        cases hq : applyDelta p d with
        | none => rw [hq] at h; exact absurd h (by simp)
        | some q =>
          rw [hq] at h
          cases h2 : reconstructFrom (some p) rs with
          | none => rw [h2] at h; exact absurd h (by simp)
          | some rest =>
            rw [h2] at h
            simp at h
            rw [← h]
            have := ih _ _ h2
            simp [countDeltas, GpsRecord.isDelta] at this ⊢
            omega
    | User s =>
      simp only [reconstructFrom, recStep] at h
      cases h2 : reconstructFrom st rs with
      | none => rw [h2] at h; exact absurd h (by simp)
      | some rest =>
        rw [h2] at h
        simp at h
        rw [← h]
        simpa [countDeltas, GpsRecord.isDelta] using ih _ _ h2
    | Version s =>
      simp only [reconstructFrom, recStep] at h
      cases h2 : reconstructFrom st rs with
      | none => rw [h2] at h; exact absurd h (by simp)
      | some rest =>
        rw [h2] at h
        simp at h
        rw [← h]
        simpa [countDeltas, GpsRecord.isDelta] using ih _ _ h2
    | AppVersion s =>
      simp only [reconstructFrom, recStep] at h
      cases h2 : reconstructFrom st rs with
      | none => rw [h2] at h; exact absurd h (by simp)
      | some rest =>
        rw [h2] at h
        simp at h
        rw [← h]
        simpa [countDeltas, GpsRecord.isDelta] using ih _ _ h2
    | Device fs =>
      simp only [reconstructFrom, recStep] at h
      cases h2 : reconstructFrom st rs with
      | none => rw [h2] at h; exact absurd h (by simp)
      | some rest =>
        rw [h2] at h
        simp at h
        rw [← h]
        simpa [countDeltas, GpsRecord.isDelta] using ih _ _ h2

lemma reconstructFrom_delta_at (pre : List GpsRecord) :
    ∀ (st : Option Point) (d : DeltaRec) (post : List GpsRecord) (ps : List Point),
      reconstructFrom st (pre ++ .Delta d :: post) = some ps →
      ∃ a, pre.foldl recState st = some a ∧
        ps[countDeltas pre]? = some (applyDeltaPoint a d) := by
  induction pre with
  | nil =>
    intro st d post ps h
    simp only [List.nil_append] at h
    cases st with
    | none => exact absurd h (by simp [reconstructFrom, recStep])
    | some p =>
      rw [reconstructFrom_cons_delta] at h
      cases hq : applyDelta p d with
      | none => rw [hq] at h; exact absurd h (by simp)
      | some q =>
        rw [hq] at h
        cases h2 : reconstructFrom (some p) post with
        | none => rw [h2] at h; exact absurd h (by simp)
        | some rest =>
          rw [h2] at h
          simp at h
          refine ⟨p, rfl, ?_⟩
          rw [← h]
          simp [countDeltas, applyDelta_some p d q hq]
  | cons r pre ih =>
    intro st d post ps h
    rw [List.cons_append] at h
    cases r with
    | Coords t la lo el =>
      simp only [reconstructFrom, recStep] at h
      cases h2 : reconstructFrom (some (anchorPoint t la lo el)) (pre ++ .Delta d :: post) with
      | none => rw [h2] at h; exact absurd h (by simp)
      | some rest =>
        rw [h2] at h
        simp at h
        obtain ⟨a, ha, hget⟩ := ih (some (anchorPoint t la lo el)) d post rest h2
        refine ⟨a, ?_, ?_⟩
        · simpa [recState] using ha
        · rw [← h]
          simpa [countDeltas, GpsRecord.isDelta] using hget
    | Delta d2 =>
      cases st with
      | none => exact absurd h (by simp [reconstructFrom, recStep])
      | some p =>
        rw [reconstructFrom_cons_delta] at h
        cases hq : applyDelta p d2 with
        | none => rw [hq] at h; exact absurd h (by simp)
        | some q =>
          rw [hq] at h
          cases h2 : reconstructFrom (some p) (pre ++ .Delta d :: post) with
          | none => rw [h2] at h; exact absurd h (by simp)
          | some rest =>
            rw [h2] at h
            simp at h
            obtain ⟨a, ha, hget⟩ := ih (some p) d post rest h2
            refine ⟨a, ?_, ?_⟩
            · simpa [recState] using ha
            · rw [← h]
              have hc : countDeltas (GpsRecord.Delta d2 :: pre) = countDeltas pre + 1 := by
                simp [countDeltas, GpsRecord.isDelta]
              rw [hc]
              simpa using hget
    | User s =>
      simp only [reconstructFrom, recStep] at h
      cases h2 : reconstructFrom st (pre ++ .Delta d :: post) with
      | none => rw [h2] at h; exact absurd h (by simp)
      | some rest =>
        rw [h2] at h
        simp at h
        obtain ⟨a, ha, hget⟩ := ih st d post rest h2
        refine ⟨a, ?_, ?_⟩
        · simpa [recState] using ha
        · rw [← h]
          simpa [countDeltas, GpsRecord.isDelta] using hget
    | Version s =>
      simp only [reconstructFrom, recStep] at h
      cases h2 : reconstructFrom st (pre ++ .Delta d :: post) with
      | none => rw [h2] at h; exact absurd h (by simp)
      | some rest =>
        rw [h2] at h
        simp at h
        obtain ⟨a, ha, hget⟩ := ih st d post rest h2
        refine ⟨a, ?_, ?_⟩
        · simpa [recState] using ha
        · rw [← h]
          simpa [countDeltas, GpsRecord.isDelta] using hget
    | AppVersion s =>
      simp only [reconstructFrom, recStep] at h
      cases h2 : reconstructFrom st (pre ++ .Delta d :: post) with
      | none => rw [h2] at h; exact absurd h (by simp)
      | some rest =>
        rw [h2] at h
        simp at h
        obtain ⟨a, ha, hget⟩ := ih st d post rest h2
        refine ⟨a, ?_, ?_⟩
        · simpa [recState] using ha
        · rw [← h]
          simpa [countDeltas, GpsRecord.isDelta] using hget
    | Device fs =>
      simp only [reconstructFrom, recStep] at h
      cases h2 : reconstructFrom st (pre ++ .Delta d :: post) with
      | none => rw [h2] at h; exact absurd h (by simp)
      | some rest =>
        rw [h2] at h
        simp at h
        obtain ⟨a, ha, hget⟩ := ih st d post rest h2
        refine ⟨a, ?_, ?_⟩
        · simpa [recState] using ha
        · rw [← h]
          simpa [countDeltas, GpsRecord.isDelta] using hget

lemma reconstructFrom_no_delta (records : List GpsRecord)
    (h : ∀ r ∈ records, r.isDelta = false) :
    ∀ st, reconstructFrom st records = some [] := by
  induction records with
  | nil => intro st; rfl
  | cons r rs ih =>
    intro st
    have hr := h r (by simp)
    have hrs : ∀ x ∈ rs, x.isDelta = false := fun x hx => h x (by simp [hx])
    cases r with
    | Delta d => simp [GpsRecord.isDelta] at hr
    | Coords t la lo el => simp [reconstructFrom, recStep, ih hrs]
    | User s => simp [reconstructFrom, recStep, ih hrs]
    | Version s => simp [reconstructFrom, recStep, ih hrs]
    | AppVersion s => simp [reconstructFrom, recStep, ih hrs]
    | Device fs => simp [reconstructFrom, recStep, ih hrs]

lemma reconstructFrom_none_delta (pre : List GpsRecord) (d : DeltaRec)
    (post : List GpsRecord) (h : ∀ r ∈ pre, r.isCoords = false) :
    reconstructFrom none (pre ++ .Delta d :: post) = none := by
  induction pre with
  | nil => rfl
  | cons r rs ih =>
    have hr := h r (by simp)
    have hrs : ∀ x ∈ rs, x.isCoords = false := fun x hx => h x (by simp [hx])
    cases r with
    | Coords t la lo el => simp [GpsRecord.isCoords] at hr
    | Delta d2 => simp [reconstructFrom, recStep]
    | User s => simp [reconstructFrom, recStep, ih hrs]
    | Version s => simp [reconstructFrom, recStep, ih hrs]
    | AppVersion s => simp [reconstructFrom, recStep, ih hrs]
    | Device fs => simp [reconstructFrom, recStep, ih hrs]

/-- C1: an `Anchor` followed by N `Delta`s reconstructs to the ordered
per-delta traversal of `applyDelta` over the one fixed anchor point — the
Kth emitted point is the anchor position plus exactly the Kth delta's
latitude/longitude/elevation changes with that delta's speed and heading,
not cumulative across deltas (`mapM` pairs the Kth output with the Kth
delta, and propagates the chrono time-addition overflow panic as `none`) —
and a `Delta` step on an anchor state emits exactly the derived point
while leaving the `last_h` anchor unchanged, so every later delta is still
measured from the same anchor until a new `Coords` record replaces it. -/
theorem delta_relative_to_fixed_anchor :
    (∀ (t : Timestamp) (la lo el : ℚ) (ds : List DeltaRec),
      reconstruct (.Coords t la lo el :: ds.map .Delta) =
        ds.mapM (applyDelta (anchorPoint t la lo el))) ∧
    (∀ (p : Point) (d : DeltaRec) (q : Point), applyDelta p d = some q →
      recStep (some p) (.Delta d) = some (some p, [q]) ∧ q = applyDeltaPoint p d) := by
  constructor
  · intro t la lo el ds
    show reconstructFrom none (.Coords t la lo el :: ds.map .Delta) = _
    simp only [reconstructFrom, recStep]
    rw [reconstructFrom_mapM_delta]
    cases ds.mapM (applyDelta (anchorPoint t la lo el)) <;> simp
  · intro p d q hq
    exact ⟨by simp [recStep, hq], applyDelta_some p d q hq⟩

/-- Witness for C1's `Delta` step at a concrete in-range anchor and
delta. -/
theorem delta_relative_to_fixed_anchor_witness :
    recStep (some (anchorPoint ⟨0, 0⟩ 1 2 3)) (.Delta ⟨0, 0, 0, 0, 0, 0⟩) =
      some (some (anchorPoint ⟨0, 0⟩ 1 2 3),
        [applyDeltaPoint (anchorPoint ⟨0, 0⟩ 1 2 3) ⟨0, 0, 0, 0, 0, 0⟩]) ∧
    applyDeltaPoint (anchorPoint ⟨0, 0⟩ 1 2 3) ⟨0, 0, 0, 0, 0, 0⟩ =
      applyDeltaPoint (anchorPoint ⟨0, 0⟩ 1 2 3) ⟨0, 0, 0, 0, 0, 0⟩ :=
  delta_relative_to_fixed_anchor.2 (anchorPoint ⟨0, 0⟩ 1 2 3) ⟨0, 0, 0, 0, 0, 0⟩
    (applyDeltaPoint (anchorPoint ⟨0, 0⟩ 1 2 3) ⟨0, 0, 0, 0, 0, 0⟩) rfl

/-- C2 (code evaluated at the failing input): a `Delta` record with no
preceding `Coords` record makes the reconstruction loop `unwrap` a `None`
anchor, i.e. panic — modelled by the `none` outcome — instead of returning
an explicit reconstruction error. -/
theorem delta_without_anchor_panics :
    reconstruct [.Delta ⟨1000, 0, 0, 0, 1, 2⟩] = none := by
  rfl

/-- C6 (code evaluated at the failing input): with zero `Delta` records the
summary's `max_by` yields `None` and `src/main.rs` line 136 `unwrap`s it —
a panic, modelled by `none`, not an explicit "no data" report. -/
theorem max_speed_empty_panics : maxSpeed [] = none := by
  rfl

/-- C7: the reconstruction output contains exactly one point per `Delta`
record in input order — its length is the number of `Delta` records, and
the point at index k, where k is the number of `Delta` records before a
given `Delta`, is derived by `applyDeltaPoint` from that very record and
the `last_h` anchor state current at it — a `Coords` record emits nothing
and only reseeds the state with the speed-0/course-0 `anchorPoint`, and a
stream with no `Delta` records reconstructs to the empty output without
error. -/
theorem one_point_per_delta :
    (∀ (records : List GpsRecord) (ps : List Point),
      reconstruct records = some ps → ps.length = countDeltas records) ∧
    (∀ (pre : List GpsRecord) (d : DeltaRec) (post : List GpsRecord) (ps : List Point),
      reconstruct (pre ++ .Delta d :: post) = some ps →
      ∃ a, stateAfter pre = some a ∧
        ps[countDeltas pre]? = some (applyDeltaPoint a d)) ∧
    (∀ (st : Option Point) (t : Timestamp) (la lo el : ℚ),
      recStep st (.Coords t la lo el) = some (some (anchorPoint t la lo el), [])) ∧
    (∀ records : List GpsRecord,
      (∀ r ∈ records, r.isDelta = false) → reconstruct records = some []) := by
  refine ⟨?_, ?_, ?_, ?_⟩
  · intro records ps h
    exact reconstructFrom_length records none ps h
  · intro pre d post ps h
    exact reconstructFrom_delta_at pre none d post ps h
  · intro st t la lo el
    rfl
  · intro records h
    exact reconstructFrom_no_delta records h none

/-- Witness for C7 at concrete inputs. -/
theorem one_point_per_delta_witness :
    ([applyDeltaPoint (anchorPoint ⟨0, 0⟩ 1 2 3) ⟨0, 0, 0, 0, 0, 0⟩].length =
      countDeltas [.Coords ⟨0, 0⟩ 1 2 3, .Delta ⟨0, 0, 0, 0, 0, 0⟩]) ∧
    (∃ a, stateAfter [GpsRecord.Coords ⟨0, 0⟩ 1 2 3] = some a ∧
      ([applyDeltaPoint (anchorPoint ⟨0, 0⟩ 1 2 3)
          ⟨0, 0, 0, 0, 0, 0⟩])[countDeltas [GpsRecord.Coords ⟨0, 0⟩ 1 2 3]]? =
        some (applyDeltaPoint a ⟨0, 0, 0, 0, 0, 0⟩)) ∧
    reconstruct [.User "x"] = some [] := by
  refine ⟨?_, ?_, ?_⟩
  · exact one_point_per_delta.1 [.Coords ⟨0, 0⟩ 1 2 3, .Delta ⟨0, 0, 0, 0, 0, 0⟩]
      [applyDeltaPoint (anchorPoint ⟨0, 0⟩ 1 2 3) ⟨0, 0, 0, 0, 0, 0⟩] rfl
  · exact one_point_per_delta.2.1 [.Coords ⟨0, 0⟩ 1 2 3] ⟨0, 0, 0, 0, 0, 0⟩ []
      [applyDeltaPoint (anchorPoint ⟨0, 0⟩ 1 2 3) ⟨0, 0, 0, 0, 0, 0⟩] rfl
  · exact one_point_per_delta.2.2.2 [.User "x"] (by decide)

lemma endsWithStr_gps_not_acc (n : String) (h : endsWithStr n ".gps" = true) :
    endsWithStr n ".acc" = false := by
  simp only [endsWithStr, decide_eq_true_eq] at h
  simp only [endsWithStr, decide_eq_false_iff_not]
  intro hc
  have : (['.', 'g', 'p', 's'] : List Char) = ['.', 'a', 'c', 'c'] := by
    conv_lhs => rw [← h]
    conv_rhs => rw [← hc]
    norm_num
  exact absurd this (by decide)

lemma lastOr_cons (d : Option String) (n : String) (l : List String) :
    lastOr d (n :: l) = lastOr (some n) l := by
  cases l with
  | nil => rfl
  | cons x xs =>
    simp only [lastOr, List.getLast?_cons_cons]
    cases hx : (x :: xs).getLast? with
    | none => exact absurd (List.getLast?_eq_none_iff.mp hx) (by simp)
    | some y => rfl

lemma selectLoop_spec (names : List String) :
    ∀ g a, (∀ n ∈ names, endsWithStr n ".gps" = true ∨ endsWithStr n ".acc" = true) →
      selectLoop g a names = .ok (lastOr g (gpsNames names), lastOr a (accNames names)) := by
  induction names with
  | nil => intro g a _; simp [selectLoop, gpsNames, accNames, lastOr]
  | cons n ns ih =>
    intro g a h
    have hn := h n (by simp)
    have hns : ∀ x ∈ ns, endsWithStr x ".gps" = true ∨ endsWithStr x ".acc" = true :=
      fun x hx => h x (by simp [hx])
    by_cases hg : endsWithStr n ".gps" = true
    · have hacc := endsWithStr_gps_not_acc n hg
      simp only [selectLoop, hg, if_true]
      rw [ih (some n) a hns]
      have h1 : gpsNames (n :: ns) = n :: gpsNames ns := by
        simp [gpsNames, List.filter_cons, hg]
      have h2 : accNames (n :: ns) = accNames ns := by
        simp [accNames, List.filter_cons, hacc]
      rw [h1, h2, lastOr_cons]
    · have ha : endsWithStr n ".acc" = true := by
        rcases hn with h1 | h1
        · exact absurd h1 hg
        · exact h1
      have hg' : endsWithStr n ".gps" = false := by
        cases hx : endsWithStr n ".gps" with
        | false => rfl
        | true => exact absurd hx hg
      have h1 : gpsNames (n :: ns) = gpsNames ns := by
        simp [gpsNames, List.filter_cons, hg']
      have h2 : accNames (n :: ns) = n :: accNames ns := by
        simp [accNames, List.filter_cons, ha]
      simp only [selectLoop, hg', ha]
      rw [ih g (some n) hns, h1, h2, lastOr_cons]
      simp

/-- C10: when every archive member name ends in `.gps` or `.acc` and at
least one of each is present, member selection succeeds even with several
members sharing a suffix, and the `.gps` member handed to the decoder is
the last `.gps` name in the archive's listing order (each hit overwrites
the previous one at `src/main.rs` line 51). -/
theorem select_last_gps_member (names : List String)
    (h : ∀ n ∈ names, endsWithStr n ".gps" = true ∨ endsWithStr n ".acc" = true)
    (hg : gpsNames names ≠ []) (ha : accNames names ≠ []) :
    selectMembers names =
      .ok (((gpsNames names).getLast?).getD "", ((accNames names).getLast?).getD "") := by
  have hloop := selectLoop_spec names none none h
  obtain ⟨g, hgl⟩ : ∃ g, (gpsNames names).getLast? = some g := by
    cases hx : (gpsNames names).getLast? with
    | none => exact absurd (List.getLast?_eq_none_iff.mp hx) hg
    | some g => exact ⟨g, rfl⟩
  obtain ⟨a, hal⟩ : ∃ a, (accNames names).getLast? = some a := by
    cases hx : (accNames names).getLast? with
    | none => exact absurd (List.getLast?_eq_none_iff.mp hx) ha
    | some a => exact ⟨a, rfl⟩
  rw [selectMembers, hloop, lastOr, lastOr, hgl, hal]
  rfl

/-- Witness for C10: two `.gps` members and one `.acc` member; the second
`.gps` member wins. -/
theorem select_last_gps_member_witness :
    selectMembers ["a.gps", "b.acc", "c.gps"] = .ok ("c.gps", "b.acc") := by
  have h := select_last_gps_member ["a.gps", "b.acc", "c.gps"]
    (by decide) (by decide) (by decide)
  simpa using h

lemma tmod1000_lb (a : Int) : -1000 < a.tmod 1000 := by
  cases a with
  | ofNat m =>
    have h2 : (Int.ofNat m).tmod 1000 = (m : Int) % 1000 := rfl
    have h3 : (0 : Int) ≤ (m : Int) % 1000 := Int.emod_nonneg (m : Int) (by norm_num)
    omega
  | negSucc m =>
    have h2 : (Int.negSucc m).tmod 1000 = -(((m : Int) + 1) % 1000) := rfl
    have h4 : ((m : Int) + 1) % 1000 < 1000 := Int.emod_lt_of_pos _ (by norm_num)
    omega

lemma tmod1000_ub (a : Int) : a.tmod 1000 < 1000 :=
  Int.tmod_lt_of_pos a (by norm_num)

lemma i32cast_eq_self {x : Int} (h1 : -2147483648 ≤ x) (h2 : x < 2147483648) :
    i32cast x = x := by
  unfold i32cast
  omega

lemma i64cast_eq_self {x : Int} (h1 : -9223372036854775808 ≤ x)
    (h2 : x < 9223372036854775808) : i64cast x = x := by
  unfold i64cast
  omega

lemma subsecNanos_of_nonneg {u : Int} (h0 : 0 ≤ u.tmod 1000) :
    subsecNanos u = u.tmod 1000 * 1000000 := by
  have hub := tmod1000_ub u
  unfold subsecNanos u32cast
  omega

lemma subsecNanos_of_neg {u : Int} (hneg : u.tmod 1000 < 0) :
    2000000000 ≤ subsecNanos u := by
  have hlb := tmod1000_lb u
  unfold subsecNanos u32cast
  set m := u.tmod 1000 with hm
  have h1 : m % 4294967296 = m + 4294967296 := by omega
  rw [h1]
  have h2 : (m + 4294967296) * 1000000 = m * 1000000 + 4294967296 * 1000000 := by ring
  rw [h2, Int.add_mul_emod_self_left]
  have h3 : m * 1000000 % 4294967296 = m * 1000000 + 4294967296 := by omega
  rw [h3]
  omega

lemma splitFieldsAux_ne_nil (cs : List Char) : splitFieldsAux cs ≠ [] := by
  cases cs with
  | nil => simp [splitFieldsAux]
  | cons c rest =>
    simp only [splitFieldsAux]
    split
    · simp
    · split <;> simp

lemma splitOnComma_ne_nil (s : String) : splitOnComma s ≠ [] := by
  intro h
  exact splitFieldsAux_ne_nil s.data (List.map_eq_nil_iff.mp h)

lemma decodeH_eq_spec (fields : List String) :
    decodeH fields =
      match firstProblem hSchema fields with
      | some e => .error e
      | none => specBuild "H" fields := by
  rcases fields with _ | ⟨s1, r1⟩
  · rfl
  rcases h1 : parseI64 s1 with _ | utc
  · simp [decodeH, firstProblem, fieldOk, hSchema, h1]
  rcases r1 with _ | ⟨s2, r2⟩
  · simp [decodeH, firstProblem, fieldOk, hSchema, h1]
  rcases h2 : parseF64 s2 with _ | lat
  · simp [decodeH, firstProblem, fieldOk, hSchema, h1, h2]
  rcases r2 with _ | ⟨s3, r3⟩
  · simp [decodeH, firstProblem, fieldOk, hSchema, h1, h2]
  rcases h3 : parseF64 s3 with _ | lon
  · simp [decodeH, firstProblem, fieldOk, hSchema, h1, h2, h3]
  rcases r3 with _ | ⟨s4, r4⟩
  · simp [decodeH, firstProblem, fieldOk, hSchema, h1, h2, h3]
  rcases h4 : parseF64 s4 with _ | ele
  · simp [decodeH, firstProblem, fieldOk, hSchema, h1, h2, h3, h4]
  rcases r4 with _ | ⟨s5, r5⟩
  · simp [decodeH, firstProblem, fieldOk, hSchema, h1, h2, h3, h4]
  rcases h5 : parseI64 s5 with _ | loc
  · simp [decodeH, firstProblem, fieldOk, hSchema, h1, h2, h3, h4, h5]
  rcases r5 with _ | ⟨s6, r6⟩
  · simp [decodeH, firstProblem, fieldOk, hSchema, h1, h2, h3, h4, h5]
  rcases r6 with _ | ⟨s7, r7⟩
  · simp [decodeH, firstProblem, fieldOk, hSchema, h1, h2, h3, h4, h5]
  · simp [decodeH, firstProblem, fieldOk, hSchema, specBuild, h1, h2, h3, h4, h5]

lemma decodeD_eq_spec (fields : List String) :
    decodeD fields =
      match firstProblem dSchema fields with
      | some e => .error e
      | none => specBuild "D" fields := by
  rcases fields with _ | ⟨s1, r1⟩
  · rfl
  rcases h1 : parseI64 s1 with _ | millis
  · simp [decodeD, firstProblem, fieldOk, dSchema, h1]
  rcases r1 with _ | ⟨s2, r2⟩
  · simp [decodeD, firstProblem, fieldOk, dSchema, h1]
  rcases h2 : parseI64 s2 with _ | latc
  · simp [decodeD, firstProblem, fieldOk, dSchema, h1, h2]
  rcases r2 with _ | ⟨s3, r3⟩
  · simp [decodeD, firstProblem, fieldOk, dSchema, h1, h2]
  rcases h3 : parseI64 s3 with _ | lonc
  · simp [decodeD, firstProblem, fieldOk, dSchema, h1, h2, h3]
  rcases r3 with _ | ⟨s4, r4⟩
  · simp [decodeD, firstProblem, fieldOk, dSchema, h1, h2, h3]
  rcases h4 : parseI64 s4 with _ | elec
  · simp [decodeD, firstProblem, fieldOk, dSchema, h1, h2, h3, h4]
  rcases r4 with _ | ⟨s5, r5⟩
  · simp [decodeD, firstProblem, fieldOk, dSchema, h1, h2, h3, h4]
  rcases h5 : parseF64 s5 with _ | speed
  · simp [decodeD, firstProblem, fieldOk, dSchema, h1, h2, h3, h4, h5]
  rcases r5 with _ | ⟨s6, r6⟩
  · simp [decodeD, firstProblem, fieldOk, dSchema, h1, h2, h3, h4, h5]
  rcases h6 : parseF64 s6 with _ | heading
  · simp [decodeD, firstProblem, fieldOk, dSchema, h1, h2, h3, h4, h5, h6]
  · simp [decodeD, firstProblem, fieldOk, dSchema, specBuild, h1, h2, h3, h4, h5, h6]

lemma decodeFields_eq_spec (fs : List String) : decodeFields fs = specDecode fs := by
  rcases fs with _ | ⟨tag, fields⟩
  · rfl
  by_cases hU : tag = "U"
  · subst hU
    rcases fields with _ | ⟨u, r⟩ <;> rfl
  by_cases hV : tag = "V"
  · subst hV
    rcases fields with _ | ⟨v, r⟩ <;> rfl
  by_cases hA : tag = "A"
  · subst hA
    rcases fields with _ | ⟨v, r⟩ <;> rfl
  by_cases hI : tag = "I"
  · subst hI
    rfl
  by_cases hH : tag = "H"
  · subst hH
    show decodeH fields = specDecode ("H" :: fields)
    rw [decodeH_eq_spec fields]
    rfl
  by_cases hD : tag = "D"
  · subst hD
    show decodeD fields = specDecode ("D" :: fields)
    rw [decodeD_eq_spec fields]
    rfl
  · simp [decodeFields, specDecode, schema, hU, hV, hA, hI, hH, hD]

lemma firstProblem_shape (sch : List (String × FieldType)) (fields : List String)
    (e : DecodeErr) (h : firstProblem sch fields = some e) :
    (∃ n, e = .missingField n ∧ n ∈ sch.map Prod.fst) ∨
    (∃ n, e = .invalidField n ∧ n ∈ sch.map Prod.fst) := by
  induction sch generalizing fields with
  | nil => simp [firstProblem] at h
  | cons p sch ih =>
    obtain ⟨n, t⟩ := p
    cases fields with
    | nil =>
      simp only [firstProblem] at h
      have he := Option.some.inj h
      exact Or.inl ⟨n, he.symm, by simp⟩
    | cons f fs =>
      simp only [firstProblem] at h
      by_cases hok : fieldOk t f = true
      · rw [if_pos hok] at h
        rcases ih fs h with ⟨m, hm, hmem⟩ | ⟨m, hm, hmem⟩
        · refine Or.inl ⟨m, hm, ?_⟩
          simp only [List.map_cons]
          exact List.mem_cons_of_mem _ hmem
        · refine Or.inr ⟨m, hm, ?_⟩
          simp only [List.map_cons]
          exact List.mem_cons_of_mem _ hmem
      · rw [if_neg hok] at h
        have he := Option.some.inj h
        exact Or.inr ⟨n, he.symm, by simp⟩

lemma hTail_error_shape (utc : Int) (lat lon ele : ℚ) (loc : Int) (dt1 dt2 : String)
    (e : DecodeErr) (h : hTail utc lat lon ele loc dt1 dt2 = .error e) :
    e = .invalidField "first datetime" ∨ e = .invalidField "second datetime" := by
  unfold hTail at h
  split_ifs at h <;> first
    | (injection h with h2; exact Or.inl h2.symm)
    | (injection h with h2; exact Or.inr h2.symm)

lemma specBuild_ne_missingTag (tag : String) (fields : List String) :
    specBuild tag fields ≠ .error .missingTag := by
  unfold specBuild
  split_ifs
  · simp
  · simp
  · simp
  · simp
  · intro h
    rcases hTail_error_shape _ _ _ _ _ _ _ _ h with h1 | h1 <;> simp at h1
  · simp
  · simp

lemma decodeLines_isOk_iff (lines : List String) :
    (decodeLines lines).isOk = true ↔ ∀ l ∈ lines, (decodeLine l).isOk = true := by
  induction lines with
  | nil => simp [decodeLines, DecodeLinesResult.isOk]
  | cons l ls ih =>
    simp only [decodeLines]
    cases hd : decodeLine l with
    | ok r =>
      cases hds : decodeLines ls with
      | ok rs =>
        rw [hds] at ih
        simp_all [DecodeLinesResult.isOk, DecodeResult.isOk]
      | error e =>
        rw [hds] at ih
        simp_all [DecodeLinesResult.isOk, DecodeResult.isOk]
      | panic =>
        rw [hds] at ih
        simp_all [DecodeLinesResult.isOk, DecodeResult.isOk]
    | error e => simp_all [DecodeLinesResult.isOk, DecodeResult.isOk]
    | panic => simp_all [DecodeLinesResult.isOk, DecodeResult.isOk]

lemma specDecode_ne_missingTag (tag : String) (fields : List String) :
    specDecode (tag :: fields) ≠ .error .missingTag := by
  simp only [specDecode]
  split
  · simp
  · split
    · rename_i e hfp
      rcases firstProblem_shape _ fields e hfp with ⟨n, hn, _⟩ | ⟨n, hn, _⟩ <;> simp [hn]
    · exact specBuild_ne_missingTag tag fields

/-- C9: splitting any line at commas yields at least one field, so the
`missing tag field` branch of `src/main.rs` line 71 is unreachable — the
decoder never returns the missing-tag error for any input line — and an
empty line is rejected as an unrecognized tag whose name is the empty
string. -/
theorem missing_tag_unreachable :
    (∀ line : String, splitOnComma line ≠ [] ∧ decodeLine line ≠ .error .missingTag) ∧
    decodeLine "" = .error (.unknownTag "") := by
  constructor
  · intro line
    refine ⟨splitOnComma_ne_nil line, ?_⟩
    rw [decodeLine, decodeFields_eq_spec]
    rcases hsp : splitOnComma line with _ | ⟨tag, fields⟩
    · exact absurd hsp (splitOnComma_ne_nil line)
    · exact specDecode_ne_missingTag tag fields
  · rfl

/-- C8 (amended): the line decoder agrees with the table-driven spec
decoder on every input line — it fails with a named error exactly when the
tag is unknown (error naming the tag), a required field is absent or fails
its declared-type parse (the first extraction problem, an error naming the
schema field), or an `H` line's datetime strings fail validation; except
that an `H` line whose parsed fields put the derived offset or instant
outside `chrono`'s accepted ranges panics instead of returning a named
error. Every named error carries a field name from the tag's schema, and
any line failure is terminal for the stream decode (fail-fast). -/
theorem decode_error_taxonomy :
    (∀ line : String, decodeLine line = specDecode (splitOnComma line)) ∧
    (∀ (sch : List (String × FieldType)) (fields : List String) (e : DecodeErr),
      firstProblem sch fields = some e →
        (∃ n, e = .missingField n ∧ n ∈ sch.map Prod.fst) ∨
        (∃ n, e = .invalidField n ∧ n ∈ sch.map Prod.fst)) ∧
    (∀ lines : List String,
      (decodeLines lines).isOk = true ↔ ∀ l ∈ lines, (decodeLine l).isOk = true) := by
  exact ⟨fun line => decodeFields_eq_spec (splitOnComma line),
    firstProblem_shape, decodeLines_isOk_iff⟩

/-- C8 counterexample: an `H` line whose seven fields are all present and
all parse (so none of the claim's three failure conditions holds), yet the
derived timezone offset of 100000000 s is outside `FixedOffset::east`'s
±86400 bound: the decoder neither succeeds nor returns a named decode
error — it panics. -/
theorem decode_error_taxonomy_counterexample :
    decodeLine "H,0,0.0,0.0,0.0,100000000000,2023-01-01T00:00:00.0,2023-01-01T00:00:00.0"
      = .panic ∧
    (decodeLine
      "H,0,0.0,0.0,0.0,100000000000,2023-01-01T00:00:00.0,2023-01-01T00:00:00.0").isOk
      = false := by
  exact ⟨rfl, rfl⟩

/-- Witness for C8 at concrete inputs. -/
theorem decode_error_taxonomy_witness :
    decodeLine "X,1,2" = specDecode (splitOnComma "X,1,2") ∧
    ((∃ n, DecodeErr.missingField "username" = .missingField n ∧ n ∈ uSchema.map Prod.fst) ∨
      (∃ n, DecodeErr.missingField "username" = .invalidField n ∧ n ∈ uSchema.map Prod.fst)) ∧
    ((decodeLines ["U,bob"]).isOk = true ↔ ∀ l ∈ ["U,bob"], (decodeLine l).isOk = true) :=
  ⟨decode_error_taxonomy.1 "X,1,2",
    decode_error_taxonomy.2.1 uSchema [] (.missingField "username") rfl,
    decode_error_taxonomy.2.2 ["U,bob"]⟩

/-- C3: for a well-formed `H` line (one the decoder accepts, whose
timezone offset fits an `i32`), the derived offset equals
`(localEpochMillis - utcEpochMillis) / 1000` with Rust's truncating
integer division, and the decoded absolute instant equals
`utcEpochMillis` interpreted as milliseconds since the Unix epoch exactly
(the offset is display-only and does not shift the instant). -/
theorem h_offset_and_instant (fields : List String) (t : Timestamp) (la lo el : ℚ)
    (utc loc : Int)
    (hok : decodeFields ("H" :: fields) = .ok (.Coords t la lo el))
    (hu : parseI64 (fields.getD 0 "") = some utc)
    (hl : parseI64 (fields.getD 4 "") = some loc)
    (hq1 : -2147483648 ≤ (loc - utc).tdiv 1000) (hq2 : (loc - utc).tdiv 1000 < 2147483648) :
    t.offsetSecs = (loc - utc).tdiv 1000 ∧ t.epochNanos = utc * 1000000 := by
  rw [decodeFields_eq_spec] at hok
  have hok2 : (match firstProblem hSchema fields with
      | some e => DecodeResult.error e
      | none => specBuild "H" fields) = .ok (.Coords t la lo el) := hok
  cases hfp : firstProblem hSchema fields with
  | some e =>
    rw [hfp] at hok2
    exact absurd hok2 (by simp)
  | none =>
    rw [hfp] at hok2
    have hok3 : hTail ((parseI64 (fields.getD 0 "")).getD 0)
        ((parseF64 (fields.getD 1 "")).getD 0) ((parseF64 (fields.getD 2 "")).getD 0)
        ((parseF64 (fields.getD 3 "")).getD 0) ((parseI64 (fields.getD 4 "")).getD 0)
        (fields.getD 5 "") (fields.getD 6 "") = .ok (.Coords t la lo el) := hok2
    rw [hu, hl] at hok3
    simp only [Option.getD_some] at hok3
    unfold hTail at hok3
    split_ifs at hok3 with hoff hts hd1 hd2
    · injection hok3 with hrec
      injection hrec with ht hla hlo hle
      constructor
      · rw [← ht]
        show tzOffSecs utc loc = (loc - utc).tdiv 1000
        unfold tzOffSecs
        have hid := Int.tdiv_add_tmod (loc - utc) 1000
        have hlb := tmod1000_lb (loc - utc)
        have hub := tmod1000_ub (loc - utc)
        have hx1 : -9223372036854775808 ≤ loc - utc := by omega
        have hx2 : loc - utc < 9223372036854775808 := by omega
        rw [i64cast_eq_self hx1 hx2]
        exact i32cast_eq_self hq1 hq2
      · rw [← ht]
        show utc.tdiv 1000 * 1000000000 + subsecNanos utc = utc * 1000000
        by_cases hneg : utc.tmod 1000 < 0
        · exact absurd hts.1 (by have := subsecNanos_of_neg hneg; omega)
        · push_neg at hneg
          rw [subsecNanos_of_nonneg hneg]
          have hid := Int.tdiv_add_tmod utc 1000
          omega

/-- Witness for C3 at the example anchor line's fields. -/
theorem h_offset_and_instant_witness :
    (⟨1700000000000000000, 3600⟩ : Timestamp).offsetSecs =
      ((1700003600000 : Int) - 1700000000000).tdiv 1000 ∧
    (⟨1700000000000000000, 3600⟩ : Timestamp).epochNanos = 1700000000000 * 1000000 :=
  h_offset_and_instant
    ["1700000000000", "10.0", "20.0", "5.0", "1700003600000",
      "2023-11-14T22:13:20.0", "2023-11-14T23:13:20.0"]
    ⟨1700000000000000000, 3600⟩ 10 20 5 1700000000000 1700003600000
    (by with_unfolding_all rfl) rfl rfl (by decide) (by decide)

/-- C4: for a well-formed `D` line, each scaled field of the decoded
`Delta` equals the raw field parsed as an integer and then divided once by
its fixed scale constant — 1,000,000 for the latitude and longitude
changes and 10 for the elevation change — the integer being parsed first
and divided once (no string-to-float rescaling). -/
theorem d_fields_scaled (fields : List String) (d : DeltaRec) (la lo el : Int)
    (hok : decodeFields ("D" :: fields) = .ok (.Delta d))
    (hla : parseI64 (fields.getD 1 "") = some la)
    (hlo : parseI64 (fields.getD 2 "") = some lo)
    (hel : parseI64 (fields.getD 3 "") = some el) :
    d.lat = (la : ℚ) / 1000000 ∧ d.lon = (lo : ℚ) / 1000000 ∧ d.ele = (el : ℚ) / 10 := by
  rw [decodeFields_eq_spec] at hok
  have hok2 : (match firstProblem dSchema fields with
      | some e => DecodeResult.error e
      | none => specBuild "D" fields) = .ok (.Delta d) := hok
  cases hfp : firstProblem dSchema fields with
  | some e =>
    rw [hfp] at hok2
    exact absurd hok2 (by simp)
  | none =>
    rw [hfp] at hok2
    have hok3 : DecodeResult.ok (.Delta ⟨(parseI64 (fields.getD 0 "")).getD 0,
        (((parseI64 (fields.getD 1 "")).getD 0 : Int) : ℚ) / 1000000,
        (((parseI64 (fields.getD 2 "")).getD 0 : Int) : ℚ) / 1000000,
        (((parseI64 (fields.getD 3 "")).getD 0 : Int) : ℚ) / 10,
        (parseF64 (fields.getD 4 "")).getD 0,
        (parseF64 (fields.getD 5 "")).getD 0⟩) = .ok (.Delta d) := hok2
    rw [hla, hlo, hel] at hok3
    simp only [Option.getD_some] at hok3
    injection hok3 with hrec
    injection hrec with hd
    rw [← hd]
    exact ⟨rfl, rfl, rfl⟩

/-- Witness for C4 at the example delta line's fields. -/
theorem d_fields_scaled_witness :
    (⟨1000, ((500000 : Int) : ℚ) / 1000000, ((-250000 : Int) : ℚ) / 1000000,
        ((10 : Int) : ℚ) / 10, (5 : ℚ) / 2, (90 : ℚ)⟩ : DeltaRec).lat =
      ((500000 : Int) : ℚ) / 1000000 ∧
    (⟨1000, ((500000 : Int) : ℚ) / 1000000, ((-250000 : Int) : ℚ) / 1000000,
        ((10 : Int) : ℚ) / 10, (5 : ℚ) / 2, (90 : ℚ)⟩ : DeltaRec).lon =
      ((-250000 : Int) : ℚ) / 1000000 ∧
    (⟨1000, ((500000 : Int) : ℚ) / 1000000, ((-250000 : Int) : ℚ) / 1000000,
        ((10 : Int) : ℚ) / 10, (5 : ℚ) / 2, (90 : ℚ)⟩ : DeltaRec).ele =
      ((10 : Int) : ℚ) / 10 :=
  d_fields_scaled ["1000", "500000", "-250000", "10", "2.5", "90.0"]
    ⟨1000, ((500000 : Int) : ℚ) / 1000000, ((-250000 : Int) : ℚ) / 1000000,
      ((10 : Int) : ℚ) / 10, (5 : ℚ) / 2, (90 : ℚ)⟩
    500000 (-250000) 10 (by with_unfolding_all rfl) rfl rfl rfl

/-- C5 counterexample: on the spec's two example lines the pipeline emits
exactly one point, and its elevation is 6 — the anchor's 5.0 m plus the
raw change 10 decimetres = 1.0 m under the tenths-of-a-metre scale of
`src/main.rs` line 120 — not 5.1 as the claim states. -/
theorem end_to_end_scenario_counterexample :
    runPipeline
      ["H,1700000000000,10.0,20.0,5.0,1700003600000,2023-11-14T22:13:20.0,2023-11-14T23:13:20.0",
        "D,1000,500000,-250000,10,2.5,90.0"] =
      some [⟨⟨1700000001000000000, 3600⟩, 21 / 2, 79 / 4, 6, 5 / 2, 90⟩] ∧
    (⟨⟨1700000001000000000, 3600⟩, 21 / 2, 79 / 4, 6, 5 / 2, 90⟩ : Point).ele ≠ 51 / 10 := by
  constructor
  · with_unfolding_all rfl
  · norm_num

/-- C5 (amended): for the input `H,1700000000000,10.0,20.0,5.0,
1700003600000,2023-11-14T22:13:20.0,2023-11-14T23:13:20.0` followed by
`D,1000,500000,-250000,10,2.5,90.0`, the single reconstructed point has
latitude 10.5, longitude 19.75, elevation 6.0 (under the tenths-of-a-metre
elevation scale the raw change 10 is 1.0 m), speed 2.5, course 90.0, time
equal to the anchor time plus 1 second (epoch nanoseconds
1700000001000000000 at offset 3600 s east, the anchor being
1700000000000000000). -/
theorem end_to_end_scenario :
    runPipeline
      ["H,1700000000000,10.0,20.0,5.0,1700003600000,2023-11-14T22:13:20.0,2023-11-14T23:13:20.0",
        "D,1000,500000,-250000,10,2.5,90.0"] =
      some [{ time := ⟨1700000001000000000, 3600⟩, lat := 21 / 2, lon := 79 / 4,
              ele := 6, speed := 5 / 2, course := 90 }] := by
  with_unfolding_all rfl
